import Mathlib

/-!
Verification of the stochastic graph engine of the dream-exploration game
(graph generation, entropy-driven perturbation, effect system, weighted walker).

The TypeScript source is shallowly embedded: edge weights (JS doubles) are
modelled as rationals, `Math.random()` draws and random shuffles are threaded
explicitly as oracle parameters, and in-place mutation of the shared node set
is modelled by returning an updated copy of the node list.  Mutable aliasing
between the `Entropy` object and the graph (the entropy engine holds references
to every transition of every node) is modelled by flattening the per-node
transition lists in node order — exactly what `states.flatMap(s => s.transitions)`
produces in `App.tsx` — and writing the perturbed weights back positionally.
-/

namespace Dream

/-- Embeds `Transition` from `src/lib/automaton.ts`
(`{from: State, to: State, weight: number}`).  The `from`/`to` object
references are represented by the biome strings, which are the unique node
identities in this design.  `locked` and `modifiedByEffect` embed the ad-hoc
`(transition as any).locked` / `.modifiedByEffect` runtime flags attached by
`items.ts` and `effects.ts` (absent = `false`). -/
structure Transition where
  fromB : String
  toB : String
  weight : ℚ
  locked : Bool := false
  modifiedByEffect : Bool := false
deriving DecidableEq, Repr

/-- Embeds `State` from `src/lib/automaton.ts`
(`{biome, variant, transitions, discovered}`). -/
structure State where
  biome : String
  variant : String
  transitions : List Transition
  discovered : Bool
deriving DecidableEq, Repr

/-- The three entropy regimes of `src/lib/entropy.ts`
(`'Stable' | 'Shifting' | 'Chaotic'`). -/
inductive Regime where
  | Stable
  | Shifting
  | Chaotic
deriving DecidableEq, Repr

/-- Embeds `const thresholds = [31, 62, 93]` from `src/lib/entropy.ts`. -/
def thresholds : List ℚ := [31, 62, 93]

/-- The fields of the `Entropy` class from `src/lib/entropy.ts`.  The
`transitions` field is the flattened list of all edges of the graph that the
constructor received (shared, mutated in place by `processTransitions`). -/
structure Entropy where
  max : ℚ
  current : ℚ
  state : Regime
  baseWeights : List ℚ
  transitions : List Transition
deriving DecidableEq, Repr

/-- The `Entropy` constructor: `max = 100`, `current = 0`, `state = 'Stable'`,
`baseWeights = transitions.map(t => t.weight)`. -/
def Entropy.create (transitions : List Transition) : Entropy :=
  { max := 100
    current := 0
    state := Regime.Stable
    baseWeights := transitions.map (·.weight)
    transitions := transitions }

/-- One perturbed weight list: `baseWeights.map(baseWeight => max(0,
baseWeight * (1 + variation)))` where per edge `variation` is `-factor` when
that edge's `Math.random() < 0.5` draw succeeded (the boolean in `vars`) and
`+factor` otherwise.  `vars` has one entry per base weight (one `Math.random()`
call per edge in the source). -/
def perturbWeights (factor : ℚ) (baseWeights : List ℚ) (vars : List Bool) : List ℚ :=
  List.zipWith (fun bw v => max 0 (bw * (1 + (if v then -factor else factor)))) baseWeights vars

/-- Embeds `Entropy.processTransitions` from `src/lib/entropy.ts`.  In the
`Stable` regime every tracked edge weight is forced to `0`; in `Shifting` /
`Chaotic` each base weight is perturbed by `±0.15` / `±0.40` and, when the
perturbed sum is positive, every tracked edge weight is overwritten with its
perturbed weight divided by the total perturbed sum (a single global pool).
The source indexes `shiftingWeights[index]` by the position of the transition;
`baseWeights` and `transitions` have equal length for every entropy object the
program builds (the constructor snapshots one base weight per transition), so
the positional write-back is a `zipWith`.  No `locked` flag is consulted. -/
def Entropy.processTransitions (e : Entropy) (vars : List Bool) : Entropy :=
  match e.state with
  | Regime.Stable =>
      { e with transitions := e.transitions.map fun t => { t with weight := 0 } }
  | Regime.Shifting =>
      let shiftingWeights := perturbWeights (15/100) e.baseWeights vars
      let shiftingSum := shiftingWeights.sum
      if 0 < shiftingSum then
        let ts := List.zipWith (fun t w => { t with weight := w / shiftingSum })
          e.transitions shiftingWeights
        { e with transitions := ts }
      else e
  | Regime.Chaotic =>
      let chaoticWeights := perturbWeights (40/100) e.baseWeights vars
      let chaoticSum := chaoticWeights.sum
      if 0 < chaoticSum then
        let ts := List.zipWith (fun t w => { t with weight := w / chaoticSum })
          e.transitions chaoticWeights
        { e with transitions := ts }
      else e

/-- Embeds `Entropy.update` from `src/lib/entropy.ts`.  Clamps
`current + amount` to `[0, max]`, recomputes the regime from the clamped
value (`< 31` Stable, `< 62` Shifting, else Chaotic), then fires
`processTransitions` through an `if / else if / else if` chain when the update
crossed `thresholds[0] = 31`, `thresholds[1] = 62` or `thresholds[2] = 93`
upward.  The second component of the result counts how many times
`processTransitions` was invoked (`0` or `1`; the `else if` chain can fire at
most once). -/
def Entropy.update (e : Entropy) (amount : ℚ) (vars : List Bool) : Entropy × Nat :=
  let before := e.current
  let current := Max.max 0 (Min.min e.max (e.current + amount))
  let state :=
    if current < 31 then Regime.Stable
    else if current < 62 then Regime.Shifting
    else Regime.Chaotic
  let e1 := { e with current := current, state := state }
  if before < 31 ∧ 31 ≤ current then (e1.processTransitions vars, 1)
  else if before < 62 ∧ 62 ≤ current then (e1.processTransitions vars, 1)
  else if before < 93 ∧ 93 ≤ current then (e1.processTransitions vars, 1)
  else (e1, 0)

/-- Embeds `ActiveEffect` from `src/lib/effects.ts`.  `duration = none` embeds
`undefined` (permanent until manually removed).  `modifiedTransitions` embeds
the JS `Map<string, number>` of transition ids to original weights: a JS map
preserves insertion order and has unique keys, which an association list built
by append-if-absent reproduces exactly.  The `onExpire` callback closures of
`items.ts` are not needed by any claim and are omitted. -/
structure ActiveEffect where
  id : String
  name : String
  description : String
  duration : Option Int
  modifiedTransitions : List (String × ℚ) := []
  stateBiome : Option String := none
deriving DecidableEq, Repr

/-- Embeds `getTransitionId` from `src/lib/effects.ts`:
`` `${from.biome}-${to.biome}` ``. -/
def getTransitionId (fromB toB : String) : String := fromB ++ "-" ++ toB

/-- Embeds `normalizeWeights` from `src/lib/effects.ts`: divide every weight
of the node's outgoing set by their sum when that sum is positive. -/
def normalizeWeights (transitions : List Transition) : List Transition :=
  let sum := (transitions.map (·.weight)).sum
  if 0 < sum then transitions.map fun t => { t with weight := t.weight / sum }
  else transitions

/-- Embeds `storeOriginalWeights` from `src/lib/effects.ts`: records
`stateBiome` and inserts each transition's current weight into the effect's
restoration map keyed by its transition id, only when that id is not already
present (idempotent snapshot). -/
def storeOriginalWeights (transitions : List Transition) (effect : ActiveEffect)
    (stateBiome : String) : ActiveEffect :=
  { effect with
    stateBiome := some stateBiome
    modifiedTransitions := transitions.foldl (fun m t =>
      let transitionId := getTransitionId t.fromB t.toB
      if (m.lookup transitionId).isSome then m else m ++ [(transitionId, t.weight)])
      effect.modifiedTransitions }

/-- Embeds `equalizeTransitionWeights` from `src/lib/effects.ts`: no-op on an
empty edge set; otherwise snapshot originals, set every weight to
`1.0 / transitions.length`, and mark every transition `modifiedByEffect`.
The optional `effect` / `stateBiome` arguments are present at every call site
in `items.ts`, so they are taken as mandatory here. -/
def equalizeTransitionWeights (transitions : List Transition) (effect : ActiveEffect)
    (stateBiome : String) : List Transition × ActiveEffect :=
  if transitions.isEmpty then (transitions, effect)
  else
    let effect1 := storeOriginalWeights transitions effect stateBiome
    let equalWeight : ℚ := 1 / transitions.length
    (transitions.map fun t => { t with weight := equalWeight, modifiedByEffect := true },
      effect1)

/-- Embeds `biasTransitionsTowardBiomes` from `src/lib/effects.ts`: no-op on an
empty edge set; otherwise snapshot originals, multiply the weight of every
transition whose target biome is in `targetBiomes`, renormalize the node's
outgoing set, and mark every transition `modifiedByEffect`. -/
def biasTransitionsTowardBiomes (transitions : List Transition) (targetBiomes : List String)
    (biasMultiplier : ℚ) (effect : ActiveEffect) (stateBiome : String) :
    List Transition × ActiveEffect :=
  if transitions.isEmpty then (transitions, effect)
  else
    let effect1 := storeOriginalWeights transitions effect stateBiome
    let biased := transitions.map fun t =>
      if t.toB ∈ targetBiomes then { t with weight := t.weight * biasMultiplier } else t
    ((normalizeWeights biased).map fun t => { t with modifiedByEffect := true }, effect1)

/-- The weight-restoration half of `EffectManager.removeEffect` from
`src/lib/effects.ts`, applied to the transitions of the state whose biome is
the effect's `stateBiome`: every transition whose id is in the restoration map
gets its snapshotted weight written back verbatim (no renormalization) and its
`modifiedByEffect` flag cleared; transitions not in the map are untouched. -/
def restoreTransitions (effect : ActiveEffect) (transitions : List Transition) :
    List Transition :=
  transitions.map fun t =>
    match effect.modifiedTransitions.lookup (getTransitionId t.fromB t.toB) with
    | some w => { t with weight := w, modifiedByEffect := false }
    | none => t

/-- Replaces the first state whose biome is `b` (the `states.find` of
`removeEffect`) by `f` of it. -/
def updateFirstState (b : String) (f : State → State) : List State → List State
  | [] => []
  | s :: rest => if s.biome = b then f s :: rest else s :: updateFirstState b f rest

/-- Embeds `EffectManager.removeEffect` from `src/lib/effects.ts` (the
automaton-side restoration; the deletion from the active-effect map is handled
by the caller in `EffectManager.processTransition` below).  When the effect
recorded modified transitions and a state biome, the first state with that
biome has its snapshotted weights restored. -/
def EffectManager.removeEffect (effect : ActiveEffect) (states : List State) : List State :=
  match effect.stateBiome with
  | none => states
  | some b =>
      if effect.modifiedTransitions.isEmpty then states
      else updateFirstState b
        (fun s => { s with transitions := restoreTransitions effect s.transitions }) states

/-- Embeds `EffectManager.processTransition` from `src/lib/effects.ts`: every
timed effect's `duration` is decremented; effects that reach zero or less are
removed (restoring their snapshots into the graph).  Returns the surviving
effects and the updated states. -/
def EffectManager.processTransition (effects : List ActiveEffect) (states : List State) :
    List ActiveEffect × List State :=
  let decremented := effects.map fun eff =>
    match eff.duration with
    | some d => { eff with duration := some (d - 1) }
    | none => eff
  let expired := decremented.filter fun eff =>
    match eff.duration with
    | some d => d ≤ 0
    | none => false
  let states1 := expired.foldl (fun st eff => EffectManager.removeEffect eff st) states
  (decremented.filter fun eff =>
    match eff.duration with
    | some d => 0 < d
    | none => true, states1)

/-- Embeds `createPathAnchorEffect` from `src/lib/items.ts`: marks every
outgoing transition of the current state as `locked` (the ad-hoc
`(transition as any).locked = true` flag) and returns the `path-anchor`
effect, which is permanent until the player leaves the biome. -/
def createPathAnchorEffect (currentTransitions : List Transition) :
    List Transition × ActiveEffect :=
  (currentTransitions.map fun t => { t with locked := true },
   { id := "path-anchor", name := "Path Anchor",
     description := "Transition probabilities locked", duration := none })

/-- The cumulative-weight selection loop of `Player.move` from
`src/lib/player.ts`: walk the transitions in stored order, accumulating
weights, and take the first transition whose cumulative weight reaches or
exceeds the drawn `random`; `none` when the loop exhausts without a match. -/
def moveLoop (random : ℚ) : ℚ → List Transition → Option Transition
  | _, [] => none
  | cumulativeWeight, t :: rest =>
      if random ≤ cumulativeWeight + t.weight then some t
      else moveLoop random (cumulativeWeight + t.weight) rest

/-- Embeds `Player.move` from `src/lib/player.ts`, with the `Math.random()`
draw passed explicitly.  Throws (here: returns `Except.error` with the thrown
message) when the current position has no outgoing transitions; otherwise the
new position is the chosen transition's target (identified by its biome), with
the last transition (`transitions[transitions.length - 1]`) as fallback when
the loop exhausts without the cumulative weight reaching the draw. -/
def Player.move (position : State) (random : ℚ) : Except String String :=
  if h : position.transitions = [] then
    Except.error ("No transitions available from state " ++ position.biome)
  else
    match moveLoop random 0 position.transitions with
    | some t => Except.ok t.toB
    | none => Except.ok (position.transitions.getLast h).toB

/-- Specification-side quantity for §4.4: the cumulative weight of the first
`i + 1` transitions of a node's outgoing list, in stored order. -/
def cumulativeWeightAt (ts : List Transition) (i : Nat) : ℚ :=
  ((ts.take (i + 1)).map (·.weight)).sum

/-- A JSON value, as produced by a successful `JSON.parse`. -/
inductive Json where
  | null
  | bool (b : Bool)
  | num (q : ℚ)
  | str (s : String)
  | arr (elements : List Json)
  | obj (fields : List (String × Json))
deriving BEq, Repr

/-- JS property access `parsed.k` on a parsed JSON value: a field of an
object, `undefined` (here `none`) otherwise. -/
def Json.getField (j : Json) (k : String) : Option Json :=
  match j with
  | .obj fields => fields.lookup k
  | _ => none

/-- JS truthiness of a JSON value (for `parsed.reasoning || default`): `null`,
`false`, `0` and the empty string are falsy; every array or object is truthy. -/
def Json.truthy : Json → Bool
  | .null => false
  | .bool b => b
  | .num q => decide (q ≠ 0)
  | .str s => decide (s ≠ "")
  | .arr _ => true
  | .obj _ => true

/-- JS strict equality `parsed.action === 'use_item'`: true exactly when the
(possibly missing) field is the string value `use_item`. -/
def isUseItemAction : Option Json → Bool
  | some (.str s) => s == "use_item"
  | _ => false

/-- The decision action union type `'move' | 'use_item'` of `src/lib/llm.ts`. -/
inductive DecisionAction where
  | move
  | use_item
deriving DecidableEq, Repr

/-- Embeds `LLMDecision` from `src/lib/llm.ts`.  `itemIndex` and `reasoning`
are kept as raw JSON values because `parsed.itemIndex` / `parsed.reasoning`
flow through untyped in the source; the parser's fallback branches store plain
strings. -/
structure LLMDecision where
  action : DecisionAction
  itemIndex : Option Json
  reasoning : Json
deriving BEq, Repr

/-- Embeds `parseDecision` from `src/lib/llm.ts`.  The two external effectful
primitives are passed as oracles: `matchResult` is the result of
`response.match` with the non-greedy brace regex (the first brace-delimited
substring of the response, `none` when there is none), and `jsonParse`
abstracts `JSON.parse`, returning `none` exactly when the source call would
throw.  When no JSON is found or parsing throws, the parser falls back to
action `move` with a fixed non-empty reasoning string; otherwise the action is
`use_item` exactly when the parsed `action` field strictly equals the string
`use_item`, and a falsy or missing `reasoning` field falls back to the string
`No reasoning provided.`. -/
def parseDecision (matchResult : Option String) (jsonParse : String → Option Json) :
    LLMDecision :=
  match matchResult with
  | none =>
      { action := .move, itemIndex := none,
        reasoning := .str "Could not parse response, defaulting to move." }
  | some jsonText =>
      match jsonParse jsonText with
      | none =>
          { action := .move, itemIndex := none,
            reasoning := .str "JSON parse error, defaulting to move." }
      | some parsed =>
          { action := if isUseItemAction (parsed.getField "action")
              then DecisionAction.use_item else DecisionAction.move
            itemIndex := parsed.getField "itemIndex"
            reasoning :=
              match parsed.getField "reasoning" with
              | some r => if r.truthy then r else .str "No reasoning provided."
              | none => .str "No reasoning provided." }

/-- The three engine operations observable during one `handleMove` call of
`src/App.tsx`, recorded in execution order: the player's weighted draw
(`player.move()`), the effect expiry/advance block (path-anchor removal on
biome change followed by `effectManager.processTransition`), and the entropy
update (`entropy.update`). -/
inductive StepEvent where
  | draw
  | effectAdvance
  | entropyUpdate
deriving DecidableEq, Repr

/-- The game state touched by `handleMove` in `src/App.tsx`: the automaton's
states (the single shared mutable graph), the player position (by biome), the
effect manager's active effects, the non-aliasing `Entropy` fields, and the
ad-hoc `entropyReductionFactor` flag set by the Entropy Buffer item.  The
`Entropy` object's `transitions` array references every transition of every
state (built once by `states.flatMap(state => state.transitions)`), which is
recovered here by flattening the per-node lists in node order. -/
structure Game where
  states : List State
  playerBiome : String
  effects : List ActiveEffect
  entropyMax : ℚ
  entropyCurrent : ℚ
  entropyState : Regime
  entropyBaseWeights : List ℚ
  entropyReductionFactor : Option ℚ
deriving Repr

/-- The flattened transition list shared with the `Entropy` object
(`states.flatMap(state => state.transitions)`; topology never changes after
construction, so the flattening stays aligned). -/
def flattenTransitions (states : List State) : List Transition :=
  (states.map (·.transitions)).flatten

/-- Inverse of the flattening: distribute a rewritten flat transition list
back onto the per-node lists, by the nodes' own transition counts (the
in-place mutation of the shared transition objects). -/
def splitLike : List State → List Transition → List State
  | [], _ => []
  | s :: rest, ts =>
      { s with transitions := ts.take s.transitions.length } ::
        splitLike rest (ts.drop s.transitions.length)

/-- Embeds `effectManager.removeEffect(effectId, automaton)` as called from
`handleMove`: look the effect up by id; when present, restore its snapshots
into the graph and delete it from the active map. -/
def removeEffectById (effectId : String) (effects : List ActiveEffect)
    (states : List State) : List ActiveEffect × List State :=
  match effects.find? (fun e => e.id == effectId) with
  | none => (effects, states)
  | some eff =>
      (effects.filter (fun e => !(e.id == effectId)), EffectManager.removeEffect eff states)

/-- The `entropy.update` call of `handleMove`, acting on the game state: build
the `Entropy` view over the flattened graph transitions, run `update`, and
write the (possibly re-perturbed) weights back into the graph. -/
def Game.entropyUpdate (g : Game) (amount : ℚ) (vars : List Bool) : Game :=
  let e : Entropy :=
    { max := g.entropyMax, current := g.entropyCurrent, state := g.entropyState,
      baseWeights := g.entropyBaseWeights,
      transitions := flattenTransitions g.states }
  let r := Entropy.update e amount vars
  { g with states := splitLike g.states r.1.transitions,
           entropyCurrent := r.1.current, entropyState := r.1.state }

/-- Embeds `handleMove` from `src/App.tsx`, with the `Math.random()` draws
passed explicitly (`randDraw` for the player's move, `vars` for a potential
re-perturbation pass).  Execution order of the engine operations, as recorded
in the returned event list: (1) `player.move()`; on failure the `catch` block
leaves the engine untouched and nothing else runs; (2) on success, path-anchor
expiry when the biome changed, then `effectManager.processTransition` (expire
timed effects); (3) `entropy.update(2 * reductionFactor)` (the Entropy Buffer
factor, consumed and cleared; JS `|| 1.0` treats a zero factor as absent);
then the new biome is marked discovered.  Pure UI work of the source handler
(toasts, journal entries, React re-render triggers, the artifact-discovery
roll) has no engine effect and is omitted. -/
def Game.handleMove (g : Game) (randDraw : ℚ) (vars : List Bool) :
    Game × List StepEvent :=
  let currentState := (g.states.find? (fun s => s.biome == g.playerBiome)).getD
    ⟨g.playerBiome, "Default", [], false⟩
  match Player.move currentState randDraw with
  | Except.error _ => (g, [StepEvent.draw])
  | Except.ok newBiome =>
      let g1 :=
        if g.playerBiome ≠ newBiome ∧ g.effects.any (fun e => e.id == "path-anchor") then
          let r := removeEffectById "path-anchor" g.effects g.states
          { g with effects := r.1, states := r.2 }
        else g
      let r2 := EffectManager.processTransition g1.effects g1.states
      let g2 := { g1 with effects := r2.1, states := r2.2 }
      let reductionFactor :=
        match g2.entropyReductionFactor with
        | some f => if f = 0 then 1 else f
        | none => 1
      let g3 := Game.entropyUpdate { g2 with entropyReductionFactor := none }
        (2 * reductionFactor) vars
      let g4 := { g3 with
        states := updateFirstState newBiome (fun s => { s with discovered := true }) g3.states,
        playerBiome := newBiome }
      (g4, [StepEvent.draw, StepEvent.effectAdvance, StepEvent.entropyUpdate])

/-- Embeds `Object.values(Biomes)` from `src/lib/world.ts`, in declaration order. -/
def allBiomes : List String :=
  ["Ocean", "Plains", "Forest", "Mountain", "Desert", "Swamp", "Taiga",
   "Snowy", "Beach", "River", "Lake", "Gateway"]

/-- Embeds `biomeArray` from `Automaton.createRandom`: every biome except the
designated sink (`Gateway` is appended later). -/
def biomeArray : List String := allBiomes.filter (fun b => b != "Gateway")

/-- Embeds `getRandomConnectionCount` from `Automaton.createRandom`: cumulative
thresholds 0.10 / 0.45 / 0.80 / 0.95 over one uniform draw. -/
def getRandomConnectionCount (rand : ℚ) : Nat :=
  if rand < 1/10 then 0
  else if rand < 45/100 then 1
  else if rand < 8/10 then 2
  else if rand < 95/100 then 3
  else 4

/-- The random primitives drawn by `Automaton.createRandom`, passed as
oracles: the per-state connection-count draw, the per-state target shuffle (a
JS `sort` with a random comparator always returns *some* permutation of its
input — that is the only property the proofs assume of it), the per-edge raw
weight draws, the repair-target index draw, the start-candidate index draw,
the gateway incoming-count draw, the gateway-source shuffle, and the
per-source gateway edge weights. -/
structure GenOracle where
  rConn : Nat → ℚ
  shuffleTargets : Nat → List String → List String
  rWeight : Nat → Nat → ℚ
  rRepair : Nat → ℚ
  rStart : ℚ
  rIncoming : ℚ
  shuffleSources : List String → List String
  rGateway : Nat → ℚ

/-- Steps 1–3 of `Automaton.createRandom`: one node per non-sink biome
(variant `Default`, undiscovered), a drawn number of distinct outgoing
neighbors taken from the shuffled pool of other biomes, and independent
uniform raw weights normalized per node (kept raw when they sum to 0). -/
def genConnect (o : GenOracle) : List State :=
  (List.range biomeArray.length).map fun i =>
    let biome := biomeArray.getD i ""
    let connectionCount := getRandomConnectionCount (o.rConn i)
    let possibleTargets := biomeArray.filter (fun b => b != biome)
    let shuffled := o.shuffleTargets i possibleTargets
    let selectedTargets := shuffled.take connectionCount
    let rawWeights := (List.range selectedTargets.length).map (o.rWeight i)
    let sum := rawWeights.sum
    let normalizedWeights := if 0 < sum then rawWeights.map (· / sum) else rawWeights
    { biome := biome, variant := "Default",
      transitions := List.zipWith
        (fun target w => ⟨biome, target, w, false, false⟩) selectedTargets normalizedWeights,
      discovered := false }

/-- One iteration of the step-4 repair loop of `createRandom`: when state `i`
has neither outgoing nor incoming edges — checked against the *current*,
partially repaired state list, since the source loop mutates while iterating —
push one weight-1.0 edge to a uniformly drawn other node. -/
def genRepairStep (o : GenOracle) (states : List State) (i : Nat) : List State :=
  match states.get? i with
  | none => states
  | some s =>
      let hasIncoming := states.any fun o2 => o2.transitions.any fun t => t.toB == s.biome
      if s.transitions.length = 0 ∧ hasIncoming = false then
        let possibleTargets := biomeArray.filter (fun b => b != s.biome)
        match possibleTargets.get?
            (Int.floor (o.rRepair i * (possibleTargets.length : ℚ))).toNat with
        | some target =>
            states.set i
              { s with transitions := s.transitions ++ [⟨s.biome, target, 1, false, false⟩] }
        | none => states
      else states

/-- Step 4 of `createRandom`: the repair loop over every state index. -/
def genRepair (o : GenOracle) (states : List State) : List State :=
  (List.range states.length).foldl (genRepairStep o) states

/-- The per-node weight re-normalization of `createRandom` (run after the
repair step and again after the gateway edges are appended). -/
def normalizeStateWeights (s : State) : State :=
  if 0 < s.transitions.length then
    let sum := (s.transitions.map (·.weight)).sum
    if 0 < sum then
      { s with transitions := s.transitions.map fun t => { t with weight := t.weight / sum } }
    else s
  else s

/-- One dequeue of the BFS of `findNodesAtDistance`: explore the front
state's outgoing neighbors, record first-seen distances, and enqueue the
neighbors that exist in the state map.  Returns the new queue entries and the
updated distance map. -/
def bfsStep (states : List State) (front : String × Nat)
    (distances : List (String × Nat)) :
    List (String × Nat) × List (String × Nat) :=
  match states.find? (fun s => s.biome == front.1) with
  | none => ([], distances)
  | some s =>
      s.transitions.foldl (fun acc t =>
        if ((acc.2).lookup t.toB).isSome then acc
        else
          let newDistance := front.2 + 1
          let dist1 := acc.2 ++ [(t.toB, newDistance)]
          if (states.find? (fun s2 => s2.biome == t.toB)).isSome then
            (acc.1 ++ [(t.toB, newDistance)], dist1)
          else (acc.1, dist1)) ([], distances)

/-- The BFS queue loop of `findNodesAtDistance`, with explicit fuel: an entry
is only enqueued when its biome receives a distance for the first time, so the
chosen fuel (states plus total transitions plus one) always exceeds the number
of dequeues the source loop performs. -/
def bfsLoop (states : List State) :
    Nat → List (String × Nat) → List (String × Nat) → List (String × Nat)
  | 0, _, distances => distances
  | _ + 1, [], distances => distances
  | fuel + 1, front :: rest, distances =>
      let r := bfsStep states front distances
      bfsLoop states fuel (rest ++ r.1) r.2

/-- Embeds `findNodesAtDistance` from `src/lib/automaton.ts`: BFS hop
distances from `startB` over outgoing edges, then the states whose distance is
at least `minDistance` — including unreachable states (missing distance counts
as infinity). -/
def findNodesAtDistance (states : List State) (startB : String)
    (minDistance : Nat) : List State :=
  let distances := bfsLoop states
    (states.length + (flattenTransitions states).length + 1) [(startB, 0)] [(startB, 0)]
  states.filter fun s =>
    match distances.lookup s.biome with
    | some d => decide (minDistance ≤ d)
    | none => true

/-- The state list after steps 1–4 of `createRandom` and the subsequent
per-node re-normalization. -/
def genStates3 (o : GenOracle) : List State :=
  (genRepair o (genConnect o)).map normalizeStateWeights

/-- Step 5 of `createRandom`: the candidate starting state, drawn uniformly
among the states with at least one outgoing edge (falling back to the first
state).  The out-of-range index access that JS would answer with `undefined`
is answered with a dummy state; it never occurs for draws in `[0, 1)`. -/
def candidateStartingState (o : GenOracle) : State :=
  let states3 := genStates3 o
  let validStartingStates := states3.filter (fun s => 0 < s.transitions.length)
  if 0 < validStartingStates.length then
    validStartingStates.getD
      (Int.floor (o.rStart * (validStartingStates.length : ℚ))).toNat
      ⟨"", "Default", [], false⟩
  else states3.getD 0 ⟨"", "Default", [], false⟩

/-- The `Gateway` sink state as created in step 6: no outgoing transitions,
undiscovered. -/
def gatewayState : State := ⟨"Gateway", "Default", [], false⟩

/-- The state list right after the gateway is appended (`states.push`). -/
def genStates4 (o : GenOracle) : List State := genStates3 o ++ [gatewayState]

/-- Step 6 of `createRandom`: the biomes of the sources chosen to receive a
gateway edge.  Pool: BFS candidates (distance ≥ 3 from the candidate start)
having outgoing edges, falling back to every non-gateway state with outgoing
edges; then a shuffle and a `slice` of 1 (probability 0.8) or 2.  The source
shuffles the state objects themselves; a state's biome is its identity and
the push mutates the found state, so the shuffle is modelled on the biome
list. -/
def genNodesToConnect (o : GenOracle) : List String :=
  let states3 := genStates3 o
  let candidateNodes := findNodesAtDistance states3 (candidateStartingState o).biome 3
  let incomingConnectionCount : Nat := if o.rIncoming < 8/10 then 1 else 2
  let availableNodes0 := candidateNodes.filter (fun s => 0 < s.transitions.length)
  let availableNodes :=
    if availableNodes0.length = 0 then
      (genStates4 o).filter
        (fun s => s.biome != "Gateway" && decide (0 < s.transitions.length))
    else availableNodes0
  let shuffledNodes := o.shuffleSources (availableNodes.map (·.biome))
  shuffledNodes.take (Min.min incomingConnectionCount availableNodes.length)

/-- Step 7 of `createRandom`: append to each chosen source one edge into the
gateway, with weight `0.005 + rand * 0.045` (a fresh draw per source). -/
def genGatewayPush (o : GenOracle) : List State :=
  (genNodesToConnect o).enum.foldl (fun states p =>
    let gatewayWeight : ℚ := 5/1000 + o.rGateway p.1 * 45/1000
    updateFirstState p.2
      (fun s => { s with transitions :=
        s.transitions ++ [⟨p.2, "Gateway", gatewayWeight, false, false⟩] })
      states) (genStates4 o)

/-- Embeds `Automaton.createRandom` from `src/lib/automaton.ts` end to end:
the gateway push followed by the final per-node re-normalization (step 8). -/
def Automaton.createRandom (o : GenOracle) : List State :=
  (genGatewayPush o).map normalizeStateWeights

/-- Concrete game for exercising `handleMove`: the player stands at node "A",
which has a single certain edge to "B"; no active effects; entropy at 0. -/
def gHandleMoveEx : Game :=
  { states := [⟨"A", "Default", [⟨"A", "B", 1, false, false⟩], true⟩,
               ⟨"B", "Default", [], false⟩]
    playerBiome := "A"
    effects := []
    entropyMax := 100
    entropyCurrent := 0
    entropyState := Regime.Stable
    entropyBaseWeights := [1]
    entropyReductionFactor := none }

/-- Proof-side invariant for the generation phases before the gateway exists:
every state is one of the non-sink biomes and every transition targets a
non-sink biome. -/
def GenInv (states : List State) : Prop :=
  ∀ s ∈ states, s.biome ∈ biomeArray ∧ ∀ t ∈ s.transitions, t.toB ∈ biomeArray

/-- Proof-side invariant for the gateway phases: the gateway state has no
outgoing transitions, and every edge into the gateway carries a weight in
`[0.005, 0.05]`. -/
def SinkInv (states : List State) : Prop :=
  (∀ s ∈ states, s.biome = "Gateway" → s.transitions = []) ∧
  (∀ s ∈ states, ∀ t ∈ s.transitions, t.toB = "Gateway" →
    5/1000 ≤ t.weight ∧ t.weight ≤ 5/100)

/-- Helper fact: `processTransitions` only rewrites the transition weights; the
`state`, `current`, `max` and `baseWeights` fields are untouched. -/
theorem Entropy.processTransitions_state (e : Entropy) (vars : List Bool) :
    (e.processTransitions vars).state = e.state := by
  obtain ⟨m, c, st, bw, ts⟩ := e
  cases st <;> unfold Entropy.processTransitions <;> simp only [] <;>
    first | rfl | (split_ifs <;> rfl)

end Dream

namespace Dream

/-- C10: a re-perturbation pass triggered by `Entropy.update` never executes in
the `Stable` regime.  `update` recomputes the regime from the clamped
post-update value before the crossing checks, and each of the three crossing
conditions forces the clamped value to be at least 31, so whenever
`processTransitions` fires inside `update` the regime it dispatches on is
`Shifting` or `Chaotic` — the `Stable` branch (which forces every tracked edge
weight to 0) is unreachable via `update`, for every pre-state and delta. -/
theorem update_pass_not_stable (e : Entropy) (amount : ℚ) (vars : List Bool)
    (h : (Entropy.update e amount vars).2 = 1) :
    (Entropy.update e amount vars).1.state ≠ Regime.Stable := by
  unfold Entropy.update at h ⊢
  set after := Max.max 0 (Min.min e.max (e.current + amount)) with hafter
  by_cases h1 : e.current < 31 ∧ 31 ≤ after
  · simp only [if_pos h1, Entropy.processTransitions_state]
    have : ¬ after < 31 := not_lt.mpr h1.2
    simp [this]
    split_ifs <;> simp
  · by_cases h2 : e.current < 62 ∧ 62 ≤ after
    · simp only [if_neg h1, if_pos h2, Entropy.processTransitions_state]
      have : ¬ after < 31 := not_lt.mpr (by linarith [h2.2])
      simp [this]
      split_ifs <;> simp
    · by_cases h3 : e.current < 93 ∧ 93 ≤ after
      · simp only [if_neg h1, if_neg h2, if_pos h3, Entropy.processTransitions_state]
        have : ¬ after < 31 := not_lt.mpr (by linarith [h3.2])
        simp [this]
        split_ifs <;> simp
      · simp only [if_neg h1, if_neg h2, if_neg h3] at h
        exact absurd h (by norm_num)

/-- C10 witness: updating a fresh entropy object (current = 0) by 40 fires a
pass (`count = 1`) and the regime the pass ran in is not `Stable`. -/
theorem update_pass_not_stable_witness :
    (Entropy.update (Entropy.create []) 40 []).1.state ≠ Regime.Stable :=
  update_pass_not_stable (Entropy.create []) 40 []
    (by norm_num [Entropy.update, Entropy.create])

/-- Helper fact: `processTransitions` leaves the `current` field untouched. -/
theorem Entropy.processTransitions_current (e : Entropy) (vars : List Bool) :
    (e.processTransitions vars).current = e.current := by
  obtain ⟨m, c, st, bw, ts⟩ := e
  cases st <;> unfold Entropy.processTransitions <;> simp only [] <;>
    first | rfl | (split_ifs <;> rfl)

/-- C2 counterexample: the claim names 31, 62 and the max boundary 100 as the
upward-crossing triggers.  On the code the third trigger is `thresholds[2] =
93`: an update from 95 to 100 crosses the max boundary upward yet fires no
re-perturbation pass, and an update from 90 to 94 crosses none of 31, 62, 100
yet does fire one. -/
theorem update_trigger_is_93_not_100 :
    ((95:ℚ) < 100 ∧ (100:ℚ) ≤ 100 ∧
      (Entropy.update { max := 100, current := 95, state := Regime.Chaotic, baseWeights := [], transitions := [] } 5 []).1.current = 100 ∧
      (Entropy.update { max := 100, current := 95, state := Regime.Chaotic, baseWeights := [], transitions := [] } 5 []).2 = 0) ∧
    (¬ ((90:ℚ) < 31 ∧ 31 ≤ (94:ℚ)) ∧ ¬ ((90:ℚ) < 62 ∧ 62 ≤ (94:ℚ)) ∧
      ¬ ((90:ℚ) < 100 ∧ 100 ≤ (94:ℚ)) ∧
      (Entropy.update { max := 100, current := 90, state := Regime.Chaotic, baseWeights := [], transitions := [] } 4 []).2 = 1) := by
  refine ⟨⟨by norm_num, by norm_num, ?_, ?_⟩, ⟨by norm_num, by norm_num, by norm_num, ?_⟩⟩ <;>
    norm_num [Entropy.update, Entropy.processTransitions_current]

/-- C2 (amended): within a single `Entropy.update` call, a full re-perturbation
pass over every tracked edge fires exactly when the clamped value crosses
upward through threshold 31, threshold 62, or threshold 93 (the third entry of
`thresholds`, not the max boundary 100); a call that does not increase the
clamped value never fires one. -/
theorem update_fires_iff_upward_crossing (e : Entropy) (amount : ℚ) (vars : List Bool) :
    ((Entropy.update e amount vars).2 = 1 ↔
      ((e.current < 31 ∧ 31 ≤ Max.max 0 (Min.min e.max (e.current + amount))) ∨
       (e.current < 62 ∧ 62 ≤ Max.max 0 (Min.min e.max (e.current + amount))) ∨
       (e.current < 93 ∧ 93 ≤ Max.max 0 (Min.min e.max (e.current + amount))))) ∧
    (Max.max 0 (Min.min e.max (e.current + amount)) ≤ e.current →
      (Entropy.update e amount vars).2 = 0) := by
  simp only [Entropy.update]
  set after := Max.max 0 (Min.min e.max (e.current + amount)) with hA
  by_cases c1 : e.current < 31 ∧ 31 ≤ after
  · rw [if_pos c1]
    exact ⟨⟨fun _ => Or.inl c1, fun _ => rfl⟩,
      fun hd => absurd (lt_of_lt_of_le c1.1 c1.2) (not_lt.mpr hd)⟩
  · rw [if_neg c1]
    by_cases c2 : e.current < 62 ∧ 62 ≤ after
    · rw [if_pos c2]
      exact ⟨⟨fun _ => Or.inr (Or.inl c2), fun _ => rfl⟩,
        fun hd => absurd (lt_of_lt_of_le c2.1 c2.2) (not_lt.mpr hd)⟩
    · rw [if_neg c2]
      by_cases c3 : e.current < 93 ∧ 93 ≤ after
      · rw [if_pos c3]
        exact ⟨⟨fun _ => Or.inr (Or.inr c3), fun _ => rfl⟩,
          fun hd => absurd (lt_of_lt_of_le c3.1 c3.2) (not_lt.mpr hd)⟩
      · rw [if_neg c3]
        refine ⟨⟨fun h => ?_, fun h => ?_⟩, fun _ => rfl⟩
        · simp at h
        · rcases h with h | h | h
          · exact absurd h c1
          · exact absurd h c2
          · exact absurd h c3

/-- C2 witness: instantiates the amended trigger characterization at a
concrete crossing (0 → 40 fires) and at a concrete downward move
(50 → 45 does not). -/
theorem update_fires_iff_upward_crossing_witness :
    (Entropy.update (Entropy.create []) 40 []).2 = 1 ∧
    (Entropy.update { max := 100, current := 50, state := Regime.Shifting, baseWeights := [], transitions := [] } (-5) []).2 = 0 := by
  constructor
  · exact (update_fires_iff_upward_crossing (Entropy.create []) 40 []).1.mpr
      (Or.inl (by norm_num [Entropy.create]))
  · exact (update_fires_iff_upward_crossing _ (-5) []).2 (by norm_num)

/-- C5 counterexample: a single update that takes `current` from 0 (below 31)
to 70 (at least 31) changes the regime to `Chaotic`, not `Shifting`, because
the clamped value lands at or above threshold 62. -/
theorem update_crossing_31_can_reach_chaotic :
    (0:ℚ) < 31 ∧ (31:ℚ) ≤ 70 ∧
    (Entropy.update (Entropy.create []) 70 []).1.current = 70 ∧
    (Entropy.update (Entropy.create []) 70 []).1.state = Regime.Chaotic ∧
    (Entropy.update (Entropy.create []) 70 []).1.state ≠ Regime.Shifting := by
  have hst : (Entropy.update (Entropy.create []) 70 []).1.state = Regime.Chaotic := by
    norm_num [Entropy.update, Entropy.create, Entropy.processTransitions_state]
  refine ⟨by norm_num, by norm_num, ?_, hst, by simp [hst]⟩
  norm_num [Entropy.update, Entropy.create, Entropy.processTransitions_current]

/-- C5 (amended): if a single `Entropy.update` call takes `current` from a
value below 31 to a clamped value in `[31, 62)`, the regime changes from
`Stable` to `Shifting` and exactly one re-perturbation pass is triggered by
that call.  (A crossing that lands at 62 or above yields `Chaotic` instead;
see the counterexample.) -/
theorem update_stable_to_shifting (e : Entropy) (amount : ℚ) (vars : List Bool)
    (hstable : e.state = Regime.Stable)
    (hbefore : e.current < 31)
    (hlow : 31 ≤ Max.max 0 (Min.min e.max (e.current + amount)))
    (hhigh : Max.max 0 (Min.min e.max (e.current + amount)) < 62) :
    e.state = Regime.Stable ∧
    (Entropy.update e amount vars).1.state = Regime.Shifting ∧
    (Entropy.update e amount vars).2 = 1 := by
  refine ⟨hstable, ?_, ?_⟩
  · simp only [Entropy.update]
    rw [if_pos ⟨hbefore, hlow⟩]
    simp [Entropy.processTransitions_state, not_lt.mpr hlow, hhigh]
  · simp only [Entropy.update]
    rw [if_pos ⟨hbefore, hlow⟩]

/-- C5 witness: a fresh entropy object updated by +40 lands at 40 ∈ [31, 62):
the regime flips from Stable to Shifting with exactly one pass. -/
theorem update_stable_to_shifting_witness :
    (Entropy.create []).state = Regime.Stable ∧
    (Entropy.update (Entropy.create []) 40 []).1.state = Regime.Shifting ∧
    (Entropy.update (Entropy.create []) 40 []).2 = 1 :=
  update_stable_to_shifting (Entropy.create []) 40 [] rfl
    (by norm_num [Entropy.create]) (by norm_num [Entropy.create])
    (by norm_num [Entropy.create])

/-- C3: the Path Anchor item marks edges `locked`, and its description — like
the spec — promises that locked edges are exempt from entropy perturbation.
`Entropy.processTransitions` never reads the `locked` flag: at this concrete
input, both edges of node "A" are locked by `createPathAnchorEffect`, yet a
Shifting re-perturbation pass rewrites the first locked edge's weight from
1/2 to 17/40.  The code contradicts its own item documentation
(`items.ts`: "preventing entropy from modifying them"). -/
theorem entropy_perturbs_locked_edges :
    ((createPathAnchorEffect [⟨"A", "B", 1/2, false, false⟩, ⟨"A", "C", 1/2, false, false⟩]).1.map (·.locked) = [true, true])
    ∧ ((({ max := 100, current := 35, state := Regime.Shifting, baseWeights := [1/2, 1/2], transitions := (createPathAnchorEffect [⟨"A", "B", 1/2, false, false⟩, ⟨"A", "C", 1/2, false, false⟩]).1 } : Entropy).processTransitions [true, false]).transitions.map (fun t => (t.locked, t.weight)) = [(true, 17/40), (true, 23/40)])
    ∧ ((17/40 : ℚ) ≠ 1/2) := by
  refine ⟨?_, ?_, ?_⟩
  · norm_num [createPathAnchorEffect]
  · norm_num [createPathAnchorEffect, Entropy.processTransitions, perturbWeights,
      List.zipWith]
  · norm_num

end Dream

namespace Dream

/-- Dividing every entry of a list by `s` divides the sum by `s`. -/
theorem sum_map_div (l : List ℚ) (s : ℚ) : (l.map (· / s)).sum = l.sum / s := by
  induction l with
  | nil => simp
  | cons a l ih => simp [ih, add_div]

/-- A `zipWith` that ignores its first argument is a `map` over the second
list, when the second list is at most as long as the first. -/
theorem zipWith_snd_map {α β γ : Type} (g : β → γ) :
    ∀ (l1 : List α) (l2 : List β), l2.length ≤ l1.length →
      List.zipWith (fun _ w => g w) l1 l2 = l2.map g := by
  intro l1
  induction l1 with
  | nil =>
      intro l2 h
      simp at h
      subst h
      rfl
  | cons a l ih =>
      intro l2 h
      cases l2 with
      | nil => rfl
      | cons b l2 =>
          rw [List.zipWith_cons_cons, List.map_cons, ih l2 (by simpa using h)]

/-- Rewriting every transition's weight to its old weight divided by `s`
projects to dividing the weight list by `s`. -/
theorem map_weight_reweight (ts : List Transition) (s : ℚ) :
    (ts.map fun t => { t with weight := t.weight / s }).map (·.weight) =
      (ts.map (·.weight)).map (· / s) := by
  induction ts with
  | nil => rfl
  | cons a l ih => simp only [List.map_cons, ih]

/-- C4 counterexample: starting from a valid graph (node "A" has two outgoing
edges of weight 1/2 each, node "B" one of weight 1 — every per-node sum is 1),
a single `Entropy.update` that crosses threshold 31 fires a Shifting pass
whose global renormalization leaves node "A" with outgoing weight sum 1/2. -/
theorem entropy_pass_breaks_per_node_sums :
    (((Entropy.update { max := 100, current := 20, state := Regime.Stable, baseWeights := [1/2, 1/2, 1], transitions := [⟨"A", "B", 1/2, false, false⟩, ⟨"A", "C", 1/2, false, false⟩, ⟨"B", "C", 1, false, false⟩] } 15 [false, false, false]).1.transitions.filter (fun t => t.fromB == "A")).map (·.weight)).sum = 1/2 ∧
    (1/2 : ℚ) ≠ 1 := by
  constructor
  · norm_num [Entropy.update, Entropy.processTransitions, perturbWeights,
      List.filter, List.zipWith, show ("B" == "A") = false from rfl,
      show ("A" == "A") = true from rfl]
  · norm_num

/-- C4 (amended): the per-node sum-to-1 invariant is preserved by the
per-node renormalization used by graph generation and the effect primitives
(`normalizeWeights` returns a list of weights summing to 1 whenever the input
sum is positive), but an entropy re-perturbation pass renormalizes all tracked
edges of the whole graph as a single pool: a Shifting or Chaotic pass either
leaves the entropy object unchanged (degenerate non-positive perturbed sum) or
makes the *global* weight sum 1 — so a node's outgoing sum afterwards is its
share of the pool, in general different from 1 (see the counterexample). -/
theorem weight_sum_one_amended :
    (∀ ts : List Transition, 0 < (ts.map (·.weight)).sum →
      ((normalizeWeights ts).map (·.weight)).sum = 1) ∧
    (∀ (e : Entropy) (vars : List Bool),
      (e.state = Regime.Shifting ∨ e.state = Regime.Chaotic) →
      e.baseWeights.length = e.transitions.length →
      vars.length = e.baseWeights.length →
      (((e.processTransitions vars).transitions.map (·.weight)).sum = 1 ∨
        e.processTransitions vars = e)) := by
  constructor
  · intro ts h
    simp only [normalizeWeights]
    rw [if_pos h, map_weight_reweight, sum_map_div, div_self (ne_of_gt h)]
  · intro e vars hst hlen1 hlen2
    obtain ⟨m, c, st, bw, ts⟩ := e
    simp only at hst hlen1 hlen2
    cases st
    · rcases hst with h | h <;> exact absurd h (by simp)
    · simp only [Entropy.processTransitions]
      by_cases hpos : 0 < (perturbWeights (15/100) bw vars).sum
      · left
        rw [if_pos hpos]
        have hlw : (perturbWeights (15/100) bw vars).length ≤ ts.length := by
          simp only [perturbWeights, List.length_zipWith]
          omega
        have h1 := zipWith_snd_map
          (fun y : ℚ => y / (perturbWeights (15/100) bw vars).sum) ts
          (perturbWeights (15/100) bw vars) hlw
        simp only [List.map_zipWith]
        rw [h1, sum_map_div, div_self (ne_of_gt hpos)]
      · right
        rw [if_neg hpos]
    · simp only [Entropy.processTransitions]
      by_cases hpos : 0 < (perturbWeights (40/100) bw vars).sum
      · left
        rw [if_pos hpos]
        have hlw : (perturbWeights (40/100) bw vars).length ≤ ts.length := by
          simp only [perturbWeights, List.length_zipWith]
          omega
        have h1 := zipWith_snd_map
          (fun y : ℚ => y / (perturbWeights (40/100) bw vars).sum) ts
          (perturbWeights (40/100) bw vars) hlw
        simp only [List.map_zipWith]
        rw [h1, sum_map_div, div_self (ne_of_gt hpos)]
      · right
        rw [if_neg hpos]

/-- C4 witness: per-node renormalization of two weights (1/4 and 1/4) yields
sum exactly 1, and a Shifting pass over the counterexample graph yields a
global weight sum of exactly 1. -/
theorem weight_sum_one_amended_witness :
    ((normalizeWeights [⟨"A", "B", 1/4, false, false⟩, ⟨"A", "C", 1/4, false, false⟩]).map (·.weight)).sum = 1 ∧
    ((({ max := 100, current := 35, state := Regime.Shifting, baseWeights := [1/2, 1/2, 1], transitions := [⟨"A", "B", 1/2, false, false⟩, ⟨"A", "C", 1/2, false, false⟩, ⟨"B", "C", 1, false, false⟩] } : Entropy).processTransitions [false, false, false]).transitions.map (·.weight)).sum = 1 := by
  constructor
  · exact weight_sum_one_amended.1 _ (by norm_num)
  · rcases weight_sum_one_amended.2
      { max := 100, current := 35, state := Regime.Shifting, baseWeights := [1/2, 1/2, 1], transitions := [⟨"A", "B", 1/2, false, false⟩, ⟨"A", "C", 1/2, false, false⟩, ⟨"B", "C", 1, false, false⟩] }
      [false, false, false] (Or.inl rfl) (by norm_num) (by norm_num) with h | h
    · exact h
    · exfalso
      have h2 := congrArg (fun e : Entropy => e.transitions.map (·.weight)) h
      norm_num [Entropy.processTransitions, perturbWeights, List.zipWith] at h2

end Dream

namespace Dream

/-- First cumulative weight of a non-empty transition list. -/
theorem cumulativeWeightAt_cons_zero (t : Transition) (ts : List Transition) :
    cumulativeWeightAt (t :: ts) 0 = t.weight := by
  simp [cumulativeWeightAt]

/-- Cumulative weights of a non-empty transition list, beyond the head. -/
theorem cumulativeWeightAt_cons_succ (t : Transition) (ts : List Transition) (j : Nat) :
    cumulativeWeightAt (t :: ts) (j + 1) = t.weight + cumulativeWeightAt ts j := by
  simp [cumulativeWeightAt, List.take_succ_cons]

/-- When the selection loop returns a transition, it is the transition at the
least index whose cumulative weight (from the running accumulator `c`) reaches
the drawn value. -/
theorem moveLoop_some_spec (random : ℚ) :
    ∀ (ts : List Transition) (c : ℚ) (t : Transition),
      moveLoop random c ts = some t →
      ∃ i, ∃ hi : i < ts.length, t = ts.get ⟨i, hi⟩ ∧
        random ≤ c + cumulativeWeightAt ts i ∧
        ∀ j < i, c + cumulativeWeightAt ts j < random := by
  intro ts
  induction ts with
  | nil => intro c t h; exact absurd h (by simp [moveLoop])
  | cons a rest ih =>
      intro c t h
      simp only [moveLoop] at h
      by_cases hc : random ≤ c + a.weight
      · rw [if_pos hc] at h
        refine ⟨0, by simp, ?_, ?_, ?_⟩
        · cases h; rfl
        · rw [cumulativeWeightAt_cons_zero]; exact hc
        · intro j hj; omega
      · rw [if_neg hc] at h
        obtain ⟨i, hi, ht, hle, hlt⟩ := ih (c + a.weight) t h
        refine ⟨i + 1, by simpa using Nat.succ_lt_succ hi, ?_, ?_, ?_⟩
        · simpa using ht
        · rw [cumulativeWeightAt_cons_succ]; linarith
        · intro j hj
          cases j with
          | zero => rw [cumulativeWeightAt_cons_zero]; exact not_le.mp hc
          | succ j' =>
              have := hlt j' (Nat.lt_of_succ_lt_succ hj)
              rw [cumulativeWeightAt_cons_succ]
              linarith

/-- When the selection loop exhausts, every cumulative weight stayed below the
drawn value. -/
theorem moveLoop_none_spec (random : ℚ) :
    ∀ (ts : List Transition) (c : ℚ),
      moveLoop random c ts = none →
      ∀ j < ts.length, c + cumulativeWeightAt ts j < random := by
  intro ts
  induction ts with
  | nil => intro c _ j hj; simp at hj
  | cons a rest ih =>
      intro c h j hj
      simp only [moveLoop] at h
      by_cases hc : random ≤ c + a.weight
      · rw [if_pos hc] at h; cases h
      · rw [if_neg hc] at h
        cases j with
        | zero => rw [cumulativeWeightAt_cons_zero]; exact not_le.mp hc
        | succ j' =>
            have := ih (c + a.weight) h j' (Nat.lt_of_succ_lt_succ hj)
            rw [cumulativeWeightAt_cons_succ]
            linarith

/-- C6: `Player.move` fails (throws) exactly when the current node has zero
outgoing transitions; otherwise it returns the target of an actual outgoing
transition, chosen as the first one whose cumulative weight in stored order
reaches or exceeds the draw, with the last transition as fallback when every
cumulative weight stays below the draw (floating-point-drift fallback). -/
theorem player_move_spec (position : State) (random : ℚ) :
    ((∃ msg, Player.move position random = Except.error msg) ↔
      position.transitions = []) ∧
    (position.transitions ≠ [] →
      ∃ i, ∃ hi : i < position.transitions.length,
        Player.move position random =
          Except.ok ((position.transitions.get ⟨i, hi⟩).toB) ∧
        ((random ≤ cumulativeWeightAt position.transitions i ∧
            ∀ j < i, cumulativeWeightAt position.transitions j < random) ∨
         (i = position.transitions.length - 1 ∧
            ∀ j < position.transitions.length,
              cumulativeWeightAt position.transitions j < random))) := by
  constructor
  · constructor
    · rintro ⟨msg, hmsg⟩
      by_contra hne
      unfold Player.move at hmsg
      rw [dif_neg hne] at hmsg
      rcases hml : moveLoop random 0 position.transitions with _ | t
      · rw [hml] at hmsg; cases hmsg
      · rw [hml] at hmsg; cases hmsg
    · intro hemp
      refine ⟨"No transitions available from state " ++ position.biome, ?_⟩
      unfold Player.move
      rw [dif_pos hemp]
  · intro hne
    unfold Player.move
    rw [dif_neg hne]
    rcases hml : moveLoop random 0 position.transitions with _ | t
    · refine ⟨position.transitions.length - 1, ?_, ?_, Or.inr ⟨rfl, ?_⟩⟩
      · have := List.length_pos.mpr hne; omega
      · simp [List.getLast_eq_getElem]
      · intro j hj
        have h0 := moveLoop_none_spec random position.transitions 0 hml j hj
        simpa using h0
    · obtain ⟨i, hi, ht, hle, hlt⟩ := moveLoop_some_spec random position.transitions 0 t hml
      refine ⟨i, hi, ?_, Or.inl ⟨?_, ?_⟩⟩
      · rw [ht]
      · simpa using hle
      · intro j hj
        simpa using hlt j hj

/-- C6 witness: at the sink-like state with no outgoing transitions the move
throws, and at a two-edge node it returns the target of one of the two
outgoing edges. -/
theorem player_move_spec_witness :
    (∃ msg, Player.move ⟨"Gateway", "Default", [], false⟩ (1/2) =
      Except.error msg) ∧
    (∃ i, ∃ hi : i < ([⟨"A", "B", 1/2, false, false⟩, ⟨"A", "C", 1/2, false, false⟩] : List Transition).length,
      Player.move ⟨"A", "Default", [⟨"A", "B", 1/2, false, false⟩, ⟨"A", "C", 1/2, false, false⟩], false⟩ (3/4) =
        Except.ok ((([⟨"A", "B", 1/2, false, false⟩, ⟨"A", "C", 1/2, false, false⟩] : List Transition).get ⟨i, hi⟩).toB)) := by
  constructor
  · exact (player_move_spec ⟨"Gateway", "Default", [], false⟩ (1/2)).1.mpr rfl
  · obtain ⟨i, hi, hok, _⟩ :=
      (player_move_spec ⟨"A", "Default", [⟨"A", "B", 1/2, false, false⟩, ⟨"A", "C", 1/2, false, false⟩], false⟩ (3/4)).2
      (by simp)
    exact ⟨i, hi, hok⟩

end Dream

namespace Dream

/-- Appending a fresh pair does not create a binding for a key that is absent
and different from the new key. -/
theorem lookup_append_single_none (k k2 : String) (v : ℚ) :
    ∀ m : List (String × ℚ), m.lookup k = none → k ≠ k2 →
      (m ++ [(k2, v)]).lookup k = none := by
  intro m
  induction m with
  | nil =>
      intro _ hk
      simp [List.lookup, beq_false_of_ne hk]
  | cons q m ih =>
      intro hm hk
      obtain ⟨k1, v1⟩ := q
      rcases hq : (k == k1) with _ | _
      · simp only [List.lookup, hq] at hm
        simp only [List.cons_append, List.lookup, hq]
        exact ih hm hk
      · simp only [List.lookup, hq] at hm
        cases hm

/-- Shape of the snapshot fold of `storeOriginalWeights`: when none of the
transition ids is already present and the ids are pairwise distinct, the fold
appends one `(id, weight)` pair per transition, in order. -/
theorem storeFold_eq :
    ∀ (ts : List Transition) (m : List (String × ℚ)),
      (∀ t ∈ ts, m.lookup (getTransitionId t.fromB t.toB) = none) →
      ((ts.map fun t => getTransitionId t.fromB t.toB).Nodup) →
      ts.foldl (fun m t =>
        let transitionId := getTransitionId t.fromB t.toB
        if (m.lookup transitionId).isSome then m
        else m ++ [(transitionId, t.weight)]) m =
      m ++ ts.map (fun t => (getTransitionId t.fromB t.toB, t.weight)) := by
  intro ts
  induction ts with
  | nil => intro m _ _; simp
  | cons a rest ih =>
      intro m habsent hnodup
      have ha : m.lookup (getTransitionId a.fromB a.toB) = none :=
        habsent a (by simp)
      have hstep : (if (m.lookup (getTransitionId a.fromB a.toB)).isSome then m
          else m ++ [(getTransitionId a.fromB a.toB, a.weight)]) =
          m ++ [(getTransitionId a.fromB a.toB, a.weight)] := by
        rw [ha]
        simp
      have hnotin : getTransitionId a.fromB a.toB ∉
          rest.map fun t => getTransitionId t.fromB t.toB := by
        have := hnodup
        simp only [List.map_cons, List.nodup_cons] at this
        exact this.1
      have habsent1 : ∀ t ∈ rest,
          (m ++ [(getTransitionId a.fromB a.toB, a.weight)]).lookup
            (getTransitionId t.fromB t.toB) = none := by
        intro t ht
        refine lookup_append_single_none _ _ _ m (habsent t (by simp [ht])) ?_
        intro hEq
        exact hnotin (hEq ▸ List.mem_map_of_mem (fun t => getTransitionId t.fromB t.toB) ht)
      have hnodup1 : (rest.map fun t => getTransitionId t.fromB t.toB).Nodup := by
        have := hnodup
        simp only [List.map_cons, List.nodup_cons] at this
        exact this.2
      simp only [List.foldl_cons, hstep]
      rw [ih _ habsent1 hnodup1]
      simp

/-- Looking up a transition's id in the ordered snapshot map recovers that
transition's weight, when the ids are pairwise distinct. -/
theorem lookup_pair_map :
    ∀ ts : List Transition,
      ((ts.map fun t => getTransitionId t.fromB t.toB).Nodup) →
      ∀ t ∈ ts,
        (ts.map fun t => (getTransitionId t.fromB t.toB, t.weight)).lookup
          (getTransitionId t.fromB t.toB) = some t.weight := by
  intro ts
  induction ts with
  | nil => intro _ t ht; simp at ht
  | cons a rest ih =>
      intro hnodup t ht
      have hnotin : getTransitionId a.fromB a.toB ∉
          rest.map fun t => getTransitionId t.fromB t.toB := by
        have := hnodup
        simp only [List.map_cons, List.nodup_cons] at this
        exact this.1
      have hnodup1 : (rest.map fun t => getTransitionId t.fromB t.toB).Nodup := by
        have := hnodup
        simp only [List.map_cons, List.nodup_cons] at this
        exact this.2
      rcases List.mem_cons.mp ht with rfl | hmem
      · simp [List.lookup]
      · have hne : getTransitionId t.fromB t.toB ≠ getTransitionId a.fromB a.toB := by
          intro hEq
          exact hnotin
            (hEq ▸ List.mem_map_of_mem (fun t => getTransitionId t.fromB t.toB) hmem)
        simp only [List.map_cons, List.lookup, beq_false_of_ne hne]
        exact ih hnodup1 t hmem

/-- C7: applying the equalize effect (`equalizeTransitionWeights`, the Weight
Shifter primitive) to a node with `n` outgoing edges sets every edge weight to
`1/n`, and removing the effect (`restoreTransitions`, the restoration half of
`EffectManager.removeEffect`) writes every snapshotted pre-effect weight back
verbatim, with no renormalization: source, target and weight of every edge are
exactly as before the effect.  Hypotheses: the node has at least one outgoing
edge, the effect is fresh (empty restoration map, as at every `items.ts` call
site), and the node's transition ids are pairwise distinct (guaranteed by
generation: no duplicate targets). -/
theorem equalize_then_restore (ts : List Transition) (effect : ActiveEffect) (b : String)
    (hne : ts ≠ [])
    (hfresh : effect.modifiedTransitions = [])
    (hnodup : (ts.map fun t => getTransitionId t.fromB t.toB).Nodup) :
    (∀ t ∈ (equalizeTransitionWeights ts effect b).1,
      t.weight = 1 / (ts.length : ℚ)) ∧
    ((equalizeTransitionWeights ts effect b).1.length = ts.length) ∧
    ((restoreTransitions (equalizeTransitionWeights ts effect b).2
        (equalizeTransitionWeights ts effect b).1).map
          (fun t => (t.fromB, t.toB, t.weight)) =
      ts.map fun t => (t.fromB, t.toB, t.weight)) := by
  have hempty : ts.isEmpty = false := by
    cases ts
    · exact absurd rfl hne
    · rfl
  have heq : equalizeTransitionWeights ts effect b =
      (ts.map fun t => { t with weight := 1 / (ts.length : ℚ), modifiedByEffect := true },
        storeOriginalWeights ts effect b) := by
    simp [equalizeTransitionWeights, hempty]
  have hmap : (storeOriginalWeights ts effect b).modifiedTransitions =
      ts.map fun t => (getTransitionId t.fromB t.toB, t.weight) := by
    simp only [storeOriginalWeights, hfresh]
    rw [storeFold_eq ts [] (fun t _ => rfl) hnodup]
    simp
  refine ⟨?_, ?_, ?_⟩
  · intro t ht
    rw [heq] at ht
    simp only [List.mem_map] at ht
    obtain ⟨t0, _, rfl⟩ := ht
    rfl
  · rw [heq]
    simp
  · rw [heq]
    simp only [restoreTransitions, List.map_map]
    refine List.map_congr_left ?_
    intro t ht
    simp only [Function.comp]
    rw [hmap, lookup_pair_map ts hnodup t ht]

/-- C7 witness: equalizing a two-edge node with weights 1/4 and 3/4 yields
weights 1/2 and 1/2, and removing the effect afterwards restores the exact
original source/target/weight triples. -/
theorem equalize_then_restore_witness :
    (∀ t ∈ (equalizeTransitionWeights [⟨"A", "B", 1/4, false, false⟩, ⟨"A", "C", 3/4, false, false⟩] ⟨"weight-shifter", "Weight Shifter", "All paths equally likely", some 1, [], none⟩ "A").1,
      t.weight = 1 / (([⟨"A", "B", 1/4, false, false⟩, ⟨"A", "C", 3/4, false, false⟩] : List Transition).length : ℚ)) ∧
    ((restoreTransitions (equalizeTransitionWeights [⟨"A", "B", 1/4, false, false⟩, ⟨"A", "C", 3/4, false, false⟩] ⟨"weight-shifter", "Weight Shifter", "All paths equally likely", some 1, [], none⟩ "A").2
        (equalizeTransitionWeights [⟨"A", "B", 1/4, false, false⟩, ⟨"A", "C", 3/4, false, false⟩] ⟨"weight-shifter", "Weight Shifter", "All paths equally likely", some 1, [], none⟩ "A").1).map
          (fun t => (t.fromB, t.toB, t.weight)) =
      ([⟨"A", "B", 1/4, false, false⟩, ⟨"A", "C", 3/4, false, false⟩] : List Transition).map fun t => (t.fromB, t.toB, t.weight)) := by
  have h := equalize_then_restore
    [⟨"A", "B", 1/4, false, false⟩, ⟨"A", "C", 3/4, false, false⟩]
    ⟨"weight-shifter", "Weight Shifter", "All paths equally likely", some 1, [], none⟩
    "A" (by simp) rfl (by simp [getTransitionId])
  exact ⟨h.1, h.2.2⟩

end Dream

namespace Dream

/-- C9: whenever no valid JSON decision can be extracted from the response —
the brace regex finds no match, or `JSON.parse` throws on what it found — the
parser returns action `move` with a non-empty reasoning string; and for every
input whatsoever the returned action is `move` or `use_item` (the parser is a
total function: every failure is caught and mapped to the fallback, never
rethrown). -/
theorem parseDecision_fallback_safe (matchResult : Option String)
    (jsonParse : String → Option Json) :
    ((match matchResult with
      | none => True
      | some s => jsonParse s = none) →
      (parseDecision matchResult jsonParse).action = DecisionAction.move ∧
      ∃ s, (parseDecision matchResult jsonParse).reasoning = Json.str s ∧ s ≠ "") ∧
    ((parseDecision matchResult jsonParse).action = DecisionAction.move ∨
      (parseDecision matchResult jsonParse).action = DecisionAction.use_item) := by
  constructor
  · intro hfail
    cases matchResult with
    | none =>
        exact ⟨rfl, "Could not parse response, defaulting to move.", rfl, by simp⟩
    | some s =>
        simp only at hfail
        have hred : parseDecision (some s) jsonParse =
            { action := .move, itemIndex := none,
              reasoning := .str "JSON parse error, defaulting to move." } := by
          simp [parseDecision, hfail]
        rw [hred]
        exact ⟨rfl, "JSON parse error, defaulting to move.", rfl, by simp⟩
  · cases matchResult with
    | none => exact Or.inl rfl
    | some s =>
        cases hp : jsonParse s with
        | none => simp [parseDecision, hp]
        | some parsed =>
            simp only [parseDecision, hp]
            by_cases hc : isUseItemAction (parsed.getField "action") = true
            · exact Or.inr (by simp [hc])
            · exact Or.inl (by simp [hc])

/-- C9 witness: a response with no brace-delimited substring, and one whose
extracted substring fails to parse, both yield the move fallback with a
non-empty reasoning string. -/
theorem parseDecision_fallback_safe_witness :
    ((parseDecision none (fun _ => none)).action = DecisionAction.move ∧
      ∃ s, (parseDecision none (fun _ => none)).reasoning = Json.str s ∧ s ≠ "") ∧
    ((parseDecision (some "not json") (fun _ => none)).action = DecisionAction.move ∧
      ∃ s, (parseDecision (some "not json") (fun _ => none)).reasoning = Json.str s ∧
        s ≠ "") :=
  ⟨(parseDecision_fallback_safe none (fun _ => none)).1 trivial,
   (parseDecision_fallback_safe (some "not json") (fun _ => none)).1 rfl⟩

end Dream

namespace Dream

/-- C1 counterexample: in a successful `handleMove` step the weighted draw is
the *first* engine operation — at this concrete input the event trace is
`[draw, effectAdvance, entropyUpdate]`, so neither the effect expiry/advance
nor the entropy update precedes the draw, contradicting the claimed
effects-before-entropy-before-draw ordering. -/
theorem handleMove_draw_precedes_effects_and_entropy :
    (Game.handleMove gHandleMoveEx (1/2) []).2 =
      [StepEvent.draw, StepEvent.effectAdvance, StepEvent.entropyUpdate] ∧
    ¬ ((Game.handleMove gHandleMoveEx (1/2) []).2.indexOf StepEvent.effectAdvance <
        (Game.handleMove gHandleMoveEx (1/2) []).2.indexOf StepEvent.draw) ∧
    ¬ ((Game.handleMove gHandleMoveEx (1/2) []).2.indexOf StepEvent.entropyUpdate <
        (Game.handleMove gHandleMoveEx (1/2) []).2.indexOf StepEvent.draw) := by
  have hm : Player.move ⟨"A", "Default", [⟨"A", "B", 1, false, false⟩], true⟩ (1/2) =
      Except.ok "B" := by
    norm_num [Player.move, moveLoop]
  have htrace : (Game.handleMove gHandleMoveEx (1/2) []).2 =
      [StepEvent.draw, StepEvent.effectAdvance, StepEvent.entropyUpdate] := by
    simp only [Game.handleMove, gHandleMoveEx]
    norm_num [List.find?, hm, show ("A" == "A") = true from rfl]
  refine ⟨htrace, ?_, ?_⟩ <;> rw [htrace] <;> decide

/-- C1 (amended): within one agent step (`handleMove`), the weighted draw runs
first; when it succeeds, the effect expiry/advance block runs next and the
entropy update last, so effect expiry does precede the entropy update, but the
draw is computed against the weights as left by the *previous* step — not
against this step's post-perturbation weights.  When the draw throws, the
catch block ends the step with no effect or entropy processing at all. -/
theorem handleMove_event_order (g : Game) (randDraw : ℚ) (vars : List Bool) :
    (Game.handleMove g randDraw vars).2 = [StepEvent.draw] ∨
    (Game.handleMove g randDraw vars).2 =
      [StepEvent.draw, StepEvent.effectAdvance, StepEvent.entropyUpdate] := by
  simp only [Game.handleMove]
  cases Player.move ((g.states.find? (fun s => s.biome == g.playerBiome)).getD
      ⟨g.playerBiome, "Default", [], false⟩) randDraw with
  | error msg => exact Or.inl rfl
  | ok newBiome => exact Or.inr rfl

end Dream

namespace Dream

/-- A fold preserves an invariant that every element-step preserves. -/
theorem foldl_preserve_mem {α β : Type} (P : α → Prop) (f : α → β → α) :
    ∀ (l : List β) (a : α), P a → (∀ a2 b, b ∈ l → P a2 → P (f a2 b)) →
      P (l.foldl f a) := by
  intro l
  induction l with
  | nil => intro a h _; exact h
  | cons b rest ih =>
      intro a h hstep
      exact ih (f a b) (hstep a b (by simp) h)
        (fun a2 b2 hb2 h2 => hstep a2 b2 (by simp [hb2]) h2)

/-- Elements of `updateFirstState` come from the original list, or are the
image under `f` of an original element whose biome is the searched one. -/
theorem mem_updateFirstState (b : String) (f : State → State) :
    ∀ (l : List State) (x : State), x ∈ updateFirstState b f l →
      x ∈ l ∨ ∃ s, s ∈ l ∧ s.biome = b ∧ x = f s := by
  intro l
  induction l with
  | nil => intro x hx; simp [updateFirstState] at hx
  | cons s rest ih =>
      intro x hx
      simp only [updateFirstState] at hx
      by_cases hb : s.biome = b
      · rw [if_pos hb] at hx
        rcases List.mem_cons.mp hx with rfl | hx
        · exact Or.inr ⟨s, by simp, hb, rfl⟩
        · exact Or.inl (by simp [hx])
      · rw [if_neg hb] at hx
        rcases List.mem_cons.mp hx with rfl | hx
        · exact Or.inl (by simp)
        · rcases ih x hx with h | ⟨s2, hs2, hsb, rfl⟩
          · exact Or.inl (by simp [h])
          · exact Or.inr ⟨s2, by simp [hs2], hsb, rfl⟩

/-- Targets of the transitions built by `genConnect`'s `zipWith` come from
the target list. -/
theorem toB_mem_zipWith (biome : String) :
    ∀ (targets : List String) (ws : List ℚ) (t : Transition),
      t ∈ List.zipWith
        (fun target w => (⟨biome, target, w, false, false⟩ : Transition)) targets ws →
      t.toB ∈ targets := by
  intro targets
  induction targets with
  | nil => intro ws t ht; simp at ht
  | cons a rest ih =>
      intro ws t ht
      cases ws with
      | nil => simp at ht
      | cons w ws =>
          rw [List.zipWith_cons_cons] at ht
          rcases List.mem_cons.mp ht with rfl | ht
          · simp
          · simp [ih ws t ht]

/-- Every biome in `biomeArray` differs from `Gateway`. -/
theorem mem_biomeArray_ne_gateway (b : String) (hb : b ∈ biomeArray) :
    b ≠ "Gateway" := by
  have h := List.mem_filter.mp hb
  simpa using h.2

/-- Helper fact: `normalizeStateWeights` never changes a state's biome. -/
theorem normalizeStateWeights_biome (s : State) :
    (normalizeStateWeights s).biome = s.biome := by
  simp only [normalizeStateWeights]
  split_ifs <;> rfl

/-- Every transition of a normalized state has the source and target of one
of the original transitions. -/
theorem normalizeStateWeights_toB (s : State) (t : Transition)
    (ht : t ∈ (normalizeStateWeights s).transitions) :
    ∃ t0 ∈ s.transitions, t.toB = t0.toB := by
  simp only [normalizeStateWeights] at ht
  split_ifs at ht
  · rcases List.mem_map.mp ht with ⟨t0, ht0, rfl⟩
    exact ⟨t0, ht0, rfl⟩
  · exact ⟨t, ht, rfl⟩
  · exact ⟨t, ht, rfl⟩

/-- Normalizing a state with no transitions is the identity. -/
theorem normalizeStateWeights_empty (s : State) (h : s.transitions = []) :
    normalizeStateWeights s = s := by
  unfold normalizeStateWeights
  rw [h]
  simp

/-- The connection phase produces only non-sink biomes and non-sink targets. -/
theorem genConnect_inv (o : GenOracle)
    (hshufT : ∀ i l, (o.shuffleTargets i l).Perm l) :
    GenInv (genConnect o) := by
  intro s hs
  simp only [genConnect, List.mem_map, List.mem_range] at hs
  obtain ⟨i, hi, rfl⟩ := hs
  constructor
  · show biomeArray.getD i "" ∈ biomeArray
    rw [List.getD_eq_getElem?_getD, List.getElem?_eq_getElem hi]
    exact List.getElem_mem hi
  · intro t ht
    have htb := toB_mem_zipWith _ _ _ t ht
    have h1 : t.toB ∈ o.shuffleTargets i
        (biomeArray.filter fun b => b != biomeArray.getD i "") :=
      List.mem_of_mem_take htb
    have h2 := (hshufT i _).mem_iff.mp h1
    exact (List.mem_filter.mp h2).1

/-- One repair iteration preserves the generation invariant. -/
theorem genRepairStep_inv (o : GenOracle) (states : List State) (i : Nat)
    (h : GenInv states) : GenInv (genRepairStep o states i) := by
  unfold genRepairStep
  cases hg : states.get? i with
  | none => exact h
  | some s =>
      simp only []
      split_ifs with hcond
      · cases hget : (biomeArray.filter fun b => b != s.biome).get?
            (Int.floor (o.rRepair i * ((biomeArray.filter fun b => b != s.biome).length : ℚ))).toNat with
        | none => exact h
        | some target =>
            intro x hx
            rcases List.mem_or_eq_of_mem_set hx with hx | rfl
            · exact h x hx
            · have hs := h s (List.get?_mem hg)
              refine ⟨hs.1, ?_⟩
              intro t ht2
              rcases List.mem_append.mp ht2 with ht2 | ht2
              · exact hs.2 t ht2
              · have htt : t = ⟨s.biome, target, 1, false, false⟩ := by
                  simpa using ht2
                have htarget : target ∈ biomeArray.filter (fun b => b != s.biome) :=
                  List.get?_mem hget
                rw [htt]
                exact (List.mem_filter.mp htarget).1
      · exact h

/-- The generation invariant holds for the fully repaired and normalized
pre-gateway state list. -/
theorem genStates3_inv (o : GenOracle)
    (hshufT : ∀ i l, (o.shuffleTargets i l).Perm l) :
    GenInv (genStates3 o) := by
  have hrep : GenInv (genRepair o (genConnect o)) := by
    unfold genRepair
    exact foldl_preserve_mem GenInv (genRepairStep o) _ _ (genConnect_inv o hshufT)
      (fun a2 b _ h2 => genRepairStep_inv o a2 b h2)
  intro s hs
  rcases List.mem_map.mp hs with ⟨s0, hs0, rfl⟩
  have h0 := hrep s0 hs0
  refine ⟨by rw [normalizeStateWeights_biome]; exact h0.1, ?_⟩
  intro t ht
  obtain ⟨t0, ht0, htb⟩ := normalizeStateWeights_toB s0 t ht
  rw [htb]
  exact h0.2 t0 ht0

/-- Every source chosen to receive a gateway edge is a non-gateway biome. -/
theorem genNodesToConnect_ne_gateway (o : GenOracle)
    (hshufT : ∀ i l, (o.shuffleTargets i l).Perm l)
    (hshufS : ∀ l, (o.shuffleSources l).Perm l) :
    ∀ b ∈ genNodesToConnect o, b ≠ "Gateway" := by
  intro b hb
  unfold genNodesToConnect at hb
  simp only [] at hb
  have h1 := List.mem_of_mem_take hb
  have h2 := (hshufS _).mem_iff.mp h1
  rcases List.mem_map.mp h2 with ⟨s, hs, rfl⟩
  by_cases hz : (((findNodesAtDistance (genStates3 o) (candidateStartingState o).biome 3).filter
      (fun s => 0 < s.transitions.length)).length = 0)
  · rw [if_pos hz] at hs
    have := (List.mem_filter.mp hs).2
    simp only [Bool.and_eq_true, bne_iff_ne] at this
    exact this.1
  · rw [if_neg hz] at hs
    have hcand := (List.mem_filter.mp hs).1
    unfold findNodesAtDistance at hcand
    have hmem3 := (List.mem_filter.mp hcand).1
    exact mem_biomeArray_ne_gateway _ ((genStates3_inv o hshufT) s hmem3).1

/-- The sink invariant holds right after the gateway state is appended. -/
theorem genStates4_sinkInv (o : GenOracle)
    (hshufT : ∀ i l, (o.shuffleTargets i l).Perm l) :
    SinkInv (genStates4 o) := by
  have hinv := genStates3_inv o hshufT
  constructor
  · intro s hs hsb
    rcases List.mem_append.mp hs with hs | hs
    · exact absurd hsb (mem_biomeArray_ne_gateway _ (hinv s hs).1)
    · have : s = gatewayState := by simpa using hs
      rw [this]
      rfl
  · intro s hs t ht htb
    rcases List.mem_append.mp hs with hs | hs
    · exact absurd htb (mem_biomeArray_ne_gateway _ ((hinv s hs).2 t ht))
    · have : s = gatewayState := by simpa using hs
      rw [this] at ht
      simp [gatewayState] at ht

/-- The gateway-push fold preserves the sink invariant: pushes only target
non-gateway sources and append gateway edges with weight in `[0.005, 0.05)`. -/
theorem genGatewayPush_sinkInv (o : GenOracle)
    (hshufT : ∀ i l, (o.shuffleTargets i l).Perm l)
    (hshufS : ∀ l, (o.shuffleSources l).Perm l)
    (hgw : ∀ i, 0 ≤ o.rGateway i ∧ o.rGateway i < 1) :
    SinkInv (genGatewayPush o) := by
  unfold genGatewayPush
  refine foldl_preserve_mem SinkInv _ _ _ (genStates4_sinkInv o hshufT) ?_
  intro states p hp hP
  have hpb : p.2 ≠ "Gateway" :=
    genNodesToConnect_ne_gateway o hshufT hshufS p.2 (List.snd_mem_of_mem_enum hp)
  have hw : 5/1000 ≤ (5/1000 + o.rGateway p.1 * 45/1000 : ℚ) ∧
      (5/1000 + o.rGateway p.1 * 45/1000 : ℚ) ≤ 5/100 := by
    have h0 := (hgw p.1).1
    have h1 := (hgw p.1).2
    constructor
    · nlinarith
    · nlinarith
  constructor
  · intro x hx hxb
    rcases mem_updateFirstState _ _ _ x hx with hx | ⟨s, hsmem, hsb, rfl⟩
    · exact hP.1 x hx hxb
    · exfalso
      have hxb2 : s.biome = "Gateway" := hxb
      rw [hsb] at hxb2
      exact hpb hxb2
  · intro x hx t ht htb
    rcases mem_updateFirstState _ _ _ x hx with hx | ⟨s, hsmem, hsb, rfl⟩
    · exact hP.2 x hx t ht htb
    · rcases List.mem_append.mp ht with ht | ht
      · exact hP.2 s hsmem t ht htb
      · have htt : t = ⟨p.2, "Gateway", 5/1000 + o.rGateway p.1 * 45/1000, false, false⟩ := by
          simpa using ht
        rw [htt]
        exact hw

/-- C8: for every graph the generator produces (for any random draws, with
the JS random-comparator sorts modelled as arbitrary permutations and the
gateway weight draws in `[0, 1)`), the `Gateway` sink state has zero outgoing
transitions, and — before the final re-normalization — every edge into the
sink is one of the appended source→gateway edges, with weight
`0.005 + r * 0.045 ∈ [0.005, 0.05]`. -/
theorem createRandom_gateway_spec (o : GenOracle)
    (hshufT : ∀ i l, (o.shuffleTargets i l).Perm l)
    (hshufS : ∀ l, (o.shuffleSources l).Perm l)
    (hgw : ∀ i, 0 ≤ o.rGateway i ∧ o.rGateway i < 1) :
    (∀ s ∈ Automaton.createRandom o, s.biome = "Gateway" → s.transitions = []) ∧
    (∀ s ∈ genGatewayPush o, ∀ t ∈ s.transitions, t.toB = "Gateway" →
      5/1000 ≤ t.weight ∧ t.weight ≤ 5/100) := by
  have hpush := genGatewayPush_sinkInv o hshufT hshufS hgw
  constructor
  · intro s hs hsb
    rcases List.mem_map.mp hs with ⟨s0, hs0, rfl⟩
    have hb0 : s0.biome = "Gateway" := by
      rw [← normalizeStateWeights_biome s0]
      exact hsb
    have hempty := hpush.1 s0 hs0 hb0
    rw [normalizeStateWeights_empty s0 hempty]
    exact hempty
  · exact hpush.2

/-- C8 witness: with the identity shuffles and all-zero draws the theorem's
hypotheses hold, so the generated graph's gateway has no outgoing edges and
every pre-renormalization gateway edge weight lies in `[0.005, 0.05]`. -/
theorem createRandom_gateway_spec_witness :
    (∀ s ∈ Automaton.createRandom ⟨fun _ => 0, fun _ l => l, fun _ _ => 0, fun _ => 0, 0, 0, fun l => l, fun _ => 0⟩,
      s.biome = "Gateway" → s.transitions = []) ∧
    (∀ s ∈ genGatewayPush ⟨fun _ => 0, fun _ l => l, fun _ _ => 0, fun _ => 0, 0, 0, fun l => l, fun _ => 0⟩,
      ∀ t ∈ s.transitions, t.toB = "Gateway" →
        5/1000 ≤ t.weight ∧ t.weight ≤ 5/100) :=
  createRandom_gateway_spec _ (fun _ l => List.Perm.refl l) (fun l => List.Perm.refl l)
    (fun _ => ⟨le_refl 0, by norm_num⟩)

end Dream
